import Mathlib

/-!
Verification development for the KeyHero rhythm game core
(`src/game/scoring.ts`, `src/game/loop.ts`, `src/audio/audioEngine.ts`).

The TypeScript classes are shallowly embedded as Lean structures and pure
state-passing functions.  JavaScript numbers used for times and scores are
modelled by `ℚ` (all the constants involved are exact decimal fractions) and
by `ℤ` for integer counters that only ever hold integers.
-/

namespace KeyHero

/-- Ratings, embedding the string union `'PERFECT' | 'GOOD' | 'MISS'`
of `HitResult.rating` in `scoring.ts`. -/
inductive Rating where
  | PERFECT
  | GOOD
  | MISS
deriving DecidableEq, Repr

/-- The rating rendered back to its source string (used as feedback text,
`loop.ts` `showFeedback(result.rating)`). -/
def Rating.toString : Rating → String
  | .PERFECT => "PERFECT"
  | .GOOD => "GOOD"
  | .MISS => "MISS"

/-- `HitResult` from `scoring.ts`. -/
structure HitResult where
  rating : Rating
  scoreDelta : ℤ
  timeDiff : ℚ
deriving DecidableEq, Repr

/-- `Note` from `src/types.ts` (`{ lane, hitTime, hit? }`); the optional
`hit` flag is modelled as a plain `Bool` (absent = `false`). -/
structure Note where
  lane : ℕ
  hitTime : ℚ
  hit : Bool
deriving DecidableEq, Repr

/-- `GameStats` from `scoring.ts`. -/
structure GameStats where
  perfectCount : ℕ
  goodCount : ℕ
  missCount : ℕ
  maxCombo : ℕ
  currentCombo : ℕ
deriving DecidableEq, Repr

/-- The mutable state of the `GameState` class in `scoring.ts`
(private fields `stats` and `score`). -/
structure GameState where
  stats : GameStats
  score : ℤ
deriving DecidableEq, Repr

/-- `RhythmScoring.evaluateHit` from `scoring.ts`:
`timeDiff = |note.hitTime - songTime|`; `≤ 0.060` → PERFECT (100),
`≤ 0.120` → GOOD (50), otherwise MISS (0). -/
def evaluateHit (note : Note) (songTime : ℚ) : HitResult :=
  let timeDiff : ℚ := |note.hitTime - songTime|
  if timeDiff ≤ 0.060 then
    { rating := .PERFECT, scoreDelta := 100, timeDiff := timeDiff }
  else if timeDiff ≤ 0.120 then
    { rating := .GOOD, scoreDelta := 50, timeDiff := timeDiff }
  else
    { rating := .MISS, scoreDelta := 0, timeDiff := timeDiff }

/-- `GameState.processHit` from `scoring.ts`: on MISS increment `missCount`
and zero `currentCombo`; otherwise bump the rating counter, increment
`currentCombo`, update `maxCombo`, and add the score delta. -/
def processHit (s : GameState) (result : HitResult) : GameState :=
  if result.rating = .MISS then
    { s with stats := { s.stats with
        missCount := s.stats.missCount + 1,
        currentCombo := 0 } }
  else
    let stats0 := s.stats
    let stats1 :=
      if result.rating = .PERFECT then
        { stats0 with perfectCount := stats0.perfectCount + 1 }
      else
        { stats0 with goodCount := stats0.goodCount + 1 }
    let stats2 := { stats1 with currentCombo := stats1.currentCombo + 1 }
    let stats3 := { stats2 with maxCombo := max stats2.maxCombo stats2.currentCombo }
    { stats := stats3, score := s.score + result.scoreDelta }

/-- The zeroed state established by the `GameState` field initialisers and
by `GameState.reset`. -/
def GameState.resetState : GameState :=
  { stats := { perfectCount := 0, goodCount := 0, missCount := 0,
               maxCombo := 0, currentCombo := 0 },
    score := 0 }

/-- Folding a sequence of judgments into the accumulator (repeated
`processHit` calls, in order). -/
def processHits (s : GameState) (results : List HitResult) : GameState :=
  results.foldl processHit s

/-- `GameState.getAccuracy` from `scoring.ts`. -/
def getAccuracy (s : GameState) : ℚ :=
  let total : ℕ := s.stats.perfectCount + s.stats.goodCount + s.stats.missCount
  if total = 0 then 0
  else
    let weightedScore : ℚ := s.stats.perfectCount * 100 + s.stats.goodCount * 50
    let maxScore : ℚ := total * 100
    (weightedScore / maxScore) * 100

/-- `GameState.getGrade` from `scoring.ts`. -/
def getGrade (s : GameState) : String :=
  let accuracy := getAccuracy s
  if accuracy ≥ 95 then "S"
  else if accuracy ≥ 90 then "A"
  else if accuracy ≥ 80 then "B"
  else if accuracy ≥ 70 then "C"
  else if accuracy ≥ 60 then "D"
  else "F"

/-- The judgment the Judge emits for a given rating (score deltas 100/50/0
as in `evaluateHit`); `timeDiff` is irrelevant to the accumulator. -/
def judgeResult : Rating → HitResult
  | .PERFECT => { rating := .PERFECT, scoreDelta := 100, timeDiff := 0 }
  | .GOOD => { rating := .GOOD, scoreDelta := 50, timeDiff := 0 }
  | .MISS => { rating := .MISS, scoreDelta := 0, timeDiff := 0 }

/-!  The Audio Clock: `WebAudioEngine` from `src/audio/audioEngine.ts`.

The engine's timing state is embedded as an explicit record; the device
clock (`audioContext.currentTime`) is passed to each operation as an
explicit `now : ℚ` argument.  The nullable `audioContext` field is
modelled by the `hasContext` flag (`true` iff the context is non-null). -/

/-- The timing-relevant fields of `WebAudioEngine`. -/
structure EngineState where
  hasContext : Bool
  songStartTime : ℚ
  calibrationOffset : ℚ
  isPlaying : Bool
  isPaused : Bool
  pauseStartTime : ℚ
  totalPausedTime : ℚ
deriving DecidableEq, Repr

/-- `WebAudioEngine.getSongTime`: `0` when there is no context or the
engine is not playing, otherwise
`max 0 (now - songStartTime - totalPausedTime - calibrationOffset)`. -/
def getSongTime (s : EngineState) (now : ℚ) : ℚ :=
  if ¬s.hasContext ∨ ¬s.isPlaying then 0
  else
    let elapsed := now - s.songStartTime
    let calibrated := elapsed - s.totalPausedTime - s.calibrationOffset
    max 0 calibrated

/-- `WebAudioEngine.stop`: releases the context and resets every timing
field except `calibrationOffset`. -/
def engineStop (s : EngineState) : EngineState :=
  { hasContext := false,
    songStartTime := 0,
    calibrationOffset := s.calibrationOffset,
    isPlaying := false,
    isPaused := false,
    pauseStartTime := 0,
    totalPausedTime := 0 }

/-- `WebAudioEngine.start` (timing-state effect): first performs a full
`stop()`, then acquires a fresh context and records the device clock
reading `now` as `songStartTime`, zeroing `totalPausedTime`. -/
def engineStart (s : EngineState) (now : ℚ) : EngineState :=
  let s' := engineStop s
  { s' with
    hasContext := true,
    songStartTime := now,
    totalPausedTime := 0,
    isPaused := false,
    isPlaying := true }

/-- `WebAudioEngine.setOffset`. -/
def setOffset (s : EngineState) (offset : ℚ) : EngineState :=
  { s with calibrationOffset := offset }

/-- `WebAudioEngine.pause`: no-op without a context, when not playing, or
when already paused; otherwise records the pause instant (read from the
same device clock) and suspends. -/
def enginePause (s : EngineState) (now : ℚ) : EngineState :=
  if ¬s.hasContext ∨ ¬s.isPlaying ∨ s.isPaused then s
  else { s with pauseStartTime := now, isPaused := true }

/-- `WebAudioEngine.resume`: no-op without a context or when not paused;
otherwise adds the just-ended pause interval, measured on the same device
clock, to `totalPausedTime`. -/
def engineResume (s : EngineState) (now : ℚ) : EngineState :=
  if ¬s.hasContext ∨ ¬s.isPaused then s
  else { s with
    totalPausedTime := s.totalPausedTime + (now - s.pauseStartTime),
    isPaused := false }

/-!  The Session Loop: `GameLoop` from `src/game/loop.ts`, together with the
`KeyboardInput` handler from `src/game/input.ts` that it drives.

The collaborators the loop only calls out to (renderer, sound effects,
end screen) are modelled as an emitted `Effect` trace; the audio engine is
external, so the song time sampled from it is an explicit argument of each
entry point.  `requestAnimationFrame` scheduling and the feedback-clearing
timeout are real-time concerns outside the embedding; the state reached by
a session is modelled as a fold over the sequence of executed ticks and
input events. -/

/-- The calls the loop makes on its collaborators, in order. -/
inductive Effect where
  | clear
  | drawLanes
  | drawHitLine
  | drawNotes
  | drawScore
  | drawFeedback
  | setShake
  | playMiss
  | playHit
  | playComboChime (combo : ℕ)
  | stopAudio
  | showEndScreen (stats : GameStats) (score : ℤ) (accuracy : ℚ) (grade : String)
deriving DecidableEq, Repr

/-- Whether an effect is one of the render calls of the per-tick render
pass (`renderer.clear/drawLanes/drawHitLine/drawNotes/drawScore/drawFeedback`). -/
def Effect.isRender : Effect → Bool
  | .clear | .drawLanes | .drawHitLine | .drawNotes | .drawScore | .drawFeedback => true
  | _ => false

/-- The mutable fields of `GameLoop` (plus the held-key set of its
`KeyboardInput` collaborator, which `handleKeyPress` reads and writes). -/
structure LoopState where
  isRunning : Bool
  currentFeedback : String
  gameState : GameState
  chart : List Note
  lastComboMilestone : ℕ
  heldKeys : List Char
deriving DecidableEq, Repr

/-- `KeyboardInput.keyToLane` (`a/s/d/f` → lanes 0..3), applied to the
lower-cased key as in `getLane`. -/
def getLane (key : Char) : Option ℕ :=
  if key.toLower = 'a' then some 0
  else if key.toLower = 's' then some 1
  else if key.toLower = 'd' then some 2
  else if key.toLower = 'f' then some 3
  else none

/-- `KeyboardInput.isKeyPressed`. -/
def isKeyPressed (held : List Char) (key : Char) : Bool :=
  held.contains key.toLower

/-- `KeyboardInput.onKeyDown` (set insertion). -/
def onKeyDown (held : List Char) (key : Char) : List Char :=
  if held.contains key.toLower then held else key.toLower :: held

/-- `KeyboardInput.onKeyUp` (set removal). -/
def onKeyUp (held : List Char) (key : Char) : List Char :=
  held.erase key.toLower

/-- The `chartDuration` computation of the `GameLoop` constructor,
`chart[chart.length - 1].hitTime + 2.0`: defined only for a non-empty
chart (on `[]` the source indexes `chart[-1]`, which is `undefined`). -/
def chartDurationOf (chart : List Note) : Option ℚ :=
  chart.getLast?.map (fun n => n.hitTime + 2.0)

/-- `GameLoop.checkMissedNotes`: a left-to-right pass over the chart; each
unjudged note with `hitTime - songTime < -0.120` is judged (necessarily
MISS), marked hit, folded into the accumulator, and its feedback and
miss side effects are emitted.  Already-judged notes are skipped.
Returns (accumulator, feedback text, updated chart, effects). -/
def checkMissedNotes (gs : GameState) (fb : String) (chart : List Note)
    (songTime : ℚ) : GameState × String × List Note × List Effect :=
  match chart with
  | [] => (gs, fb, [], [])
  | n :: ns =>
    if n.hit then
      let rest := checkMissedNotes gs fb ns songTime
      (rest.1, rest.2.1, n :: rest.2.2.1, rest.2.2.2)
    else if n.hitTime - songTime < -0.120 then
      let result := evaluateHit n songTime
      let gs1 := processHit gs result
      let fb1 := result.rating.toString
      let es1 : List Effect :=
        if result.rating = .MISS then [.setShake, .playMiss] else []
      let rest := checkMissedNotes gs1 fb1 ns songTime
      (rest.1, rest.2.1, { n with hit := true } :: rest.2.2.1, es1 ++ rest.2.2.2)
    else
      let rest := checkMissedNotes gs fb ns songTime
      (rest.1, rest.2.1, n :: rest.2.2.1, rest.2.2.2)

/-- The accumulator of `findNearestNote`'s sort-then-take-head: the head of
a stable sort by `|hitTime - songTime|` is the first element attaining the
minimal key, which this fold computes (strict `<` keeps the earlier element
on ties, as stability does). -/
def nearestFold (songTime : ℚ) (p : ℕ × Note) (l : List (ℕ × Note)) : ℕ × Note :=
  l.foldl (fun best q =>
    if |q.2.hitTime - songTime| < |best.2.hitTime - songTime| then q else best) p

/-- `GameLoop.findNearestNote`: filter the chart to unjudged notes of the
pressed lane within `±0.120` of the song time, then take the nearest in
time.  Indices are carried alongside the notes so that the caller can mark
the chosen note (the source mutates it through its reference). -/
def findNearestNote (chart : List Note) (lane : ℕ) (songTime : ℚ) :
    Option (ℕ × Note) :=
  match chart.enum.filter (fun p =>
    p.2.lane = lane ∧ p.2.hit = false ∧
    p.2.hitTime ≥ songTime - 0.120 ∧ p.2.hitTime ≤ songTime + 0.120) with
  | [] => none
  | p :: ps => some (nearestFold songTime p ps)

/-- `GameLoop.checkComboMilestone`: scan the milestones `[10,20,50,100]`
(with early break) for one equal to the combo and above the last fired
milestone; afterwards reset the tracker if the combo is 0.  Returns the new
`lastComboMilestone` and the chime effects. -/
def checkComboMilestone (last : ℕ) (combo : ℕ) : ℕ × List Effect :=
  let afterLoop : ℕ × List Effect :=
    match [10, 20, 50, 100].find? (fun m => combo = m ∧ last < m) with
    | some m => (m, [.playComboChime combo])
    | none => (last, [])
  if combo = 0 then (0, afterLoop.2) else afterLoop

/-- `GameLoop.handleKeyPress` at song time `songTime`: guard on running and
on the held-key debounce, record the key as held, resolve the lane, find
the nearest candidate note, and if one exists judge it, mark it, fold the
judgment, set feedback, and emit the rating-specific sound effects and any
combo-milestone chime. -/
def handleKeyPress (st : LoopState) (key : Char) (songTime : ℚ) :
    LoopState × List Effect :=
  if st.isRunning = false then (st, [])
  else if isKeyPressed st.heldKeys key then (st, [])
  else
    let st1 := { st with heldKeys := onKeyDown st.heldKeys key }
    match getLane key with
    | none => (st1, [])
    | some lane =>
      match findNearestNote st1.chart lane songTime with
      | none => (st1, [])
      | some (i, note) =>
        if note.hit then (st1, [])
        else
          let result := evaluateHit note songTime
          let gs' := processHit st1.gameState result
          let chart' := st1.chart.set i { note with hit := true }
          let fb' := result.rating.toString
          if result.rating = .MISS then
            ({ st1 with gameState := gs', chart := chart', currentFeedback := fb' },
             [.setShake, .playMiss])
          else
            let currentCombo := gs'.stats.currentCombo
            let mc := checkComboMilestone st1.lastComboMilestone currentCombo
            ({ st1 with gameState := gs', chart := chart', currentFeedback := fb',
                        lastComboMilestone := mc.1 },
             .playHit :: mc.2)

/-- `GameLoop.handleKeyUp`. -/
def handleKeyUp (st : LoopState) (key : Char) : LoopState :=
  { st with heldKeys := onKeyUp st.heldKeys key }

/-- `GameLoop.endGame`: leave the running state, snapshot the accumulator
(stats, score, accuracy, grade) and hand it to the end screen.  The audio
engine is not touched here. -/
def endGame (st : LoopState) : LoopState × List Effect :=
  ({ st with isRunning := false },
   [.showEndScreen st.gameState.stats st.gameState.score
      (getAccuracy st.gameState) (getGrade st.gameState)])

/-- One execution of `GameLoop.loop` at sampled song time `songTime`
(`dur` is the precomputed `chartDuration`): nothing when not running;
`endGame` without rendering when `songTime > dur`; otherwise the render
pass followed by the miss scan. -/
def tickStep (st : LoopState) (dur : ℚ) (songTime : ℚ) :
    LoopState × List Effect :=
  if st.isRunning = false then (st, [])
  else if songTime > dur then endGame st
  else
    let renderEs : List Effect :=
      [.clear, .drawLanes, .drawHitLine, .drawNotes, .drawScore, .drawFeedback]
    let scan := checkMissedNotes st.gameState st.currentFeedback st.chart songTime
    ({ st with gameState := scan.1, currentFeedback := scan.2.1, chart := scan.2.2.1 },
     renderEs ++ scan.2.2.2)

/-- An interleaving event of the single-threaded session: an animation tick
or an input edge, each carrying the song time the source samples from the
audio engine at that instant. -/
inductive GEvent where
  | tick (songTime : ℚ)
  | keyDown (key : Char) (songTime : ℚ)
  | keyUp (key : Char)
deriving DecidableEq, Repr

/-- Dispatch one event. -/
def step (st : LoopState) (dur : ℚ) : GEvent → LoopState × List Effect
  | .tick t => tickStep st dur t
  | .keyDown k t => handleKeyPress st k t
  | .keyUp k => (handleKeyUp st k, [])

/-- Run a sequence of events, accumulating the emitted effects. -/
def runEvents (st : LoopState) (dur : ℚ) : List GEvent → LoopState × List Effect
  | [] => (st, [])
  | e :: es =>
    let first := step st dur e
    let rest := runEvents first.1 dur es
    (rest.1, first.2 ++ rest.2)

/-- The loop state at session start (`isRunning` set by `GameLoop.start`,
accumulator freshly reset, all notes unjudged). -/
def startState (chart : List Note) : LoopState :=
  { isRunning := true,
    currentFeedback := "",
    gameState := GameState.resetState,
    chart := chart,
    lastComboMilestone := 0,
    heldKeys := [] }

/-- How a single `Note` may evolve across session steps: unchanged, or an
unjudged note marked judged (the `judged`/`hit` flag is a single-writer
latch; no other field ever changes). -/
def NoteEvol (n m : Note) : Prop :=
  m = n ∨ (n.hit = false ∧ m = { n with hit := true })

/-- Pointwise evolution of the chart: the length never changes and every
position still holds the same note, at most with its `hit` flag switched
from `false` to `true`. -/
def ChartEvol (c c' : List Note) : Prop :=
  c'.length = c.length ∧
  ∀ i n, c.get? i = some n → ∃ m, c'.get? i = some m ∧ NoteEvol n m

/-- The operations (and the one device-driven event) that can touch the
`WebAudioEngine` timing state.  Each carries the device-clock reading
(`audioContext.currentTime`) at which it runs, where the source reads it. -/
inductive EngineOp where
  | start (now : ℚ)
  | stop
  | pause (now : ℚ)
  | resume (now : ℚ)
  | setOff (x : ℚ)
  | ended
deriving DecidableEq, Repr

/-- Apply one engine operation.  `ended` is the `sourceNode.onended`
callback, which clears `isPlaying` when playing and not paused. -/
def applyOp (s : EngineState) : EngineOp → EngineState
  | .start now => engineStart s now
  | .stop => engineStop s
  | .pause now => enginePause s now
  | .resume now => engineResume s now
  | .setOff x => setOffset s x
  | .ended => if s.isPlaying ∧ ¬s.isPaused then { s with isPlaying := false } else s

/-- The state established by the `WebAudioEngine` field initialisers
(no context yet, everything zeroed). -/
def engineInit : EngineState :=
  { hasContext := false,
    songStartTime := 0,
    calibrationOffset := 0,
    isPlaying := false,
    isPaused := false,
    pauseStartTime := 0,
    totalPausedTime := 0 }

/-- The engine states reachable from construction through any sequence of
operations. -/
def EngineReachable (s : EngineState) : Prop :=
  ∃ ops : List EngineOp, s = ops.foldl applyOp engineInit

/-!  Helper lemmas about the accumulator. -/

theorem processHit_currentCombo (s : GameState) (r : HitResult) :
    (processHit s r).stats.currentCombo =
      if r.rating = .MISS then 0 else s.stats.currentCombo + 1 := by
  obtain ⟨⟨p, g, m, mx, c⟩, sc⟩ := s
  obtain ⟨rat, d, td⟩ := r
  cases rat <;> simp [processHit]

theorem processHit_missCount (s : GameState) (r : HitResult) :
    (processHit s r).stats.missCount =
      if r.rating = .MISS then s.stats.missCount + 1 else s.stats.missCount := by
  obtain ⟨⟨p, g, m, mx, c⟩, sc⟩ := s
  obtain ⟨rat, d, td⟩ := r
  cases rat <;> simp [processHit]

theorem processHit_score (s : GameState) (r : HitResult) :
    (processHit s r).score =
      if r.rating = .MISS then s.score else s.score + r.scoreDelta := by
  obtain ⟨⟨p, g, m, mx, c⟩, sc⟩ := s
  obtain ⟨rat, d, td⟩ := r
  cases rat <;> simp [processHit]

theorem processHit_combo_le (s : GameState) (r : HitResult) :
    (processHit s r).stats.currentCombo ≤ (processHit s r).stats.maxCombo := by
  obtain ⟨⟨p, g, m, mx, c⟩, sc⟩ := s
  obtain ⟨rat, d, td⟩ := r
  cases rat <;> simp [processHit]

theorem processHits_combo_le (results : List HitResult) (s : GameState)
    (h : s.stats.currentCombo ≤ s.stats.maxCombo) :
    (processHits s results).stats.currentCombo ≤
      (processHits s results).stats.maxCombo := by
  induction results generalizing s with
  | nil => exact h
  | cons r rs ih => exact ih (processHit s r) (processHit_combo_le s r)

theorem processHits_score (results : List HitResult) (s : GameState)
    (h : ∀ r ∈ results, r.rating = .MISS → r.scoreDelta = 0) :
    (processHits s results).score =
      s.score + (results.map HitResult.scoreDelta).sum := by
  induction results generalizing s with
  | nil => simp [processHits]
  | cons r rs ih =>
    have hr := h r (by simp)
    have step : (processHit s r).score = s.score + r.scoreDelta := by
      rw [processHit_score]
      by_cases hm : r.rating = .MISS
      · simp [hm, hr hm]
      · simp [hm]
    have := ih (processHit s r) (fun q hq => h q (by simp [hq]))
    simp only [processHits, List.foldl] at this ⊢
    rw [this, step]
    simp [add_assoc]


/-!  Claim theorems: the scoring Judge and the accumulator. -/

/-- C1 counterexample: feeding the Accumulator the judgment sequence
`[PERFECT, PERFECT, MISS, GOOD, PERFECT]` from the reset state does NOT
yield `currentCombo = 1 ∧ maxCombo = 2 ∧ score = 250 ∧ missCount = 1`
(the trailing PERFECT raises the combo to 2 and the score to 350). -/
theorem scripted_sequence_claim_false :
    ¬ (let F := processHits GameState.resetState
         ([.PERFECT, .PERFECT, .MISS, .GOOD, .PERFECT].map judgeResult)
       F.stats.currentCombo = 1 ∧ F.stats.maxCombo = 2 ∧
       F.score = 250 ∧ F.stats.missCount = 1) := by
  decide

/-- C1 (amended): the sequence `[PERFECT, PERFECT, MISS, GOOD, PERFECT]`
with the Judge's deltas (100/50/0), folded from the reset state, yields
`currentCombo = 2`, `maxCombo = 2`, `score = 350`, `missCount = 1`. -/
theorem scripted_sequence_accounting :
    (let F := processHits GameState.resetState
       ([.PERFECT, .PERFECT, .MISS, .GOOD, .PERFECT].map judgeResult)
     F.stats.currentCombo = 2 ∧ F.stats.maxCombo = 2 ∧
     F.score = 350 ∧ F.stats.missCount = 1) := by
  decide

/-- C4: `evaluateHit` reports `timeDiff = |hitTime - songTime|` and rates
PERFECT (100) iff `timeDiff ≤ 0.060`, GOOD (50) iff
`0.060 < timeDiff ≤ 0.120`, and MISS (0) iff `timeDiff > 0.120`
(both upper bounds inclusive). -/
theorem evaluateHit_threshold_boundaries (note : Note) (songTime : ℚ) :
    (evaluateHit note songTime).timeDiff = |note.hitTime - songTime| ∧
    (((evaluateHit note songTime).rating = .PERFECT ∧
        (evaluateHit note songTime).scoreDelta = 100) ↔
      |note.hitTime - songTime| ≤ 0.060) ∧
    (((evaluateHit note songTime).rating = .GOOD ∧
        (evaluateHit note songTime).scoreDelta = 50) ↔
      (0.060 < |note.hitTime - songTime| ∧
        |note.hitTime - songTime| ≤ 0.120)) ∧
    (((evaluateHit note songTime).rating = .MISS ∧
        (evaluateHit note songTime).scoreDelta = 0) ↔
      0.120 < |note.hitTime - songTime|) := by
  unfold evaluateHit
  by_cases h1 : |note.hitTime - songTime| ≤ 0.060
  · have h1' : ¬ (0.060 < |note.hitTime - songTime|) := not_lt.2 h1
    have h2 : |note.hitTime - songTime| ≤ 0.120 := le_trans h1 (by norm_num)
    have h2' : ¬ (0.120 < |note.hitTime - songTime|) := not_lt.2 h2
    simp [h1, h1', h2']
  · by_cases h2 : |note.hitTime - songTime| ≤ 0.120
    · have h1' : 0.060 < |note.hitTime - songTime| := not_le.1 h1
      have h2' : ¬ (0.120 < |note.hitTime - songTime|) := not_lt.2 h2
      simp [h1, h2, h1', h2']
    · have h2' : 0.120 < |note.hitTime - songTime| := not_le.1 h2
      have h1' : 0.060 < |note.hitTime - songTime| := lt_trans (by norm_num) h2'
      simp [h1, h2, h1', h2']

/-- C7: folding any judgment sequence from the reset state keeps
`currentCombo ≤ maxCombo`; the score equals the sum of the score deltas
(the Judge gives MISS results delta 0, the only results on which the fold
skips the addition); and each step zeroes `currentCombo` exactly on MISS,
incrementing it on PERFECT/GOOD while counting the miss. -/
theorem accumulator_fold_invariants :
    (∀ results : List HitResult,
      (∀ r ∈ results, r.rating = .MISS → r.scoreDelta = 0) →
      ((processHits GameState.resetState results).stats.currentCombo ≤
         (processHits GameState.resetState results).stats.maxCombo) ∧
      ((processHits GameState.resetState results).score =
         (results.map HitResult.scoreDelta).sum)) ∧
    (∀ (s : GameState) (r : HitResult),
      ((processHit s r).stats.currentCombo =
        if r.rating = .MISS then 0 else s.stats.currentCombo + 1) ∧
      ((processHit s r).stats.missCount =
        if r.rating = .MISS then s.stats.missCount + 1 else s.stats.missCount)) := by
  constructor
  · intro results h
    refine ⟨processHits_combo_le results GameState.resetState (by simp [GameState.resetState]), ?_⟩
    have := processHits_score results GameState.resetState h
    simpa [GameState.resetState] using this
  · intro s r
    exact ⟨processHit_currentCombo s r, processHit_missCount s r⟩

/-- C7 witness: the invariants instantiated on the concrete Judge sequence
`[PERFECT, MISS, GOOD]`. -/
theorem accumulator_fold_invariants_witness :
    ((processHits GameState.resetState
        ([.PERFECT, .MISS, .GOOD].map judgeResult)).stats.currentCombo ≤
      (processHits GameState.resetState
        ([.PERFECT, .MISS, .GOOD].map judgeResult)).stats.maxCombo) ∧
    ((processHits GameState.resetState
        ([.PERFECT, .MISS, .GOOD].map judgeResult)).score =
      (([.PERFECT, .MISS, .GOOD].map judgeResult).map HitResult.scoreDelta).sum) :=
  accumulator_fold_invariants.1 ([.PERFECT, .MISS, .GOOD].map judgeResult) (by decide)

/-- C10: the `GameLoop` constructor's `chartDuration` computation is
defined only for a non-empty chart: on `[]` the indexed last element does
not exist (the source reads `chart[-1]`, i.e. `undefined`), while any
non-empty chart yields `lastNote.hitTime + 2.0`. -/
theorem chartDuration_requires_nonempty_chart :
    chartDurationOf ([] : List Note) = none ∧
    ∀ chart : List Note, chart ≠ [] →
      ∃ last : Note, chart.getLast? = some last ∧
        chartDurationOf chart = some (last.hitTime + 2.0) := by
  refine ⟨rfl, ?_⟩
  intro chart hc
  obtain ⟨last, hlast⟩ := Option.isSome_iff_exists.1 (List.getLast?_isSome.2 hc)
  exact ⟨last, hlast, by simp [chartDurationOf, hlast]⟩

/-- C10 witness: a one-note chart has duration `1.0 + 2.0`. -/
theorem chartDuration_requires_nonempty_chart_witness :
    ∃ last : Note,
      ([{ lane := 0, hitTime := 1.0, hit := false }] : List Note).getLast? = some last ∧
      chartDurationOf [{ lane := 0, hitTime := 1.0, hit := false }] =
        some (last.hitTime + 2.0) :=
  chartDuration_requires_nonempty_chart.2
    [{ lane := 0, hitTime := 1.0, hit := false }] (by simp)

/-!  Claim theorems: the Audio Clock. -/

theorem applyOp_playing_hasContext (s : EngineState) (op : EngineOp)
    (h : s.isPlaying = true → s.hasContext = true) :
    (applyOp s op).isPlaying = true → (applyOp s op).hasContext = true := by
  obtain ⟨hc, st, off, pl, pa, ps, tp⟩ := s
  cases op <;>
    simp_all [applyOp, engineStart, engineStop, enginePause, engineResume, setOffset] <;>
    split_ifs <;> simp_all

theorem reachable_playing_hasContext (s : EngineState)
    (h : EngineReachable s) : s.isPlaying = true → s.hasContext = true := by
  obtain ⟨ops, rfl⟩ := h
  suffices H : ∀ (l : List EngineOp) (t : EngineState),
      (t.isPlaying = true → t.hasContext = true) →
      ((l.foldl applyOp t).isPlaying = true → (l.foldl applyOp t).hasContext = true) by
    exact H ops engineInit (by simp [engineInit])
  intro l
  induction l with
  | nil => intro t ht; exact ht
  | cons op rest ih =>
    intro t ht
    exact ih (applyOp t op) (applyOp_playing_hasContext t op ht)

/-- C5 counterexample: in the reachable state right after `start()` at
device time 5, the song time reported at device time 5 with calibration
offset `1` equals the one reported with offset `0` (both are clamped to
`0`), so a positive offset does not always make the reported song time
smaller. -/
theorem setOffset_positive_counterexample :
    (let s0 := List.foldl applyOp engineInit [EngineOp.start 5]
     getSongTime (setOffset s0 1) 5 = 0 ∧
     getSongTime (setOffset s0 0) 5 = 0 ∧
     ¬ getSongTime (setOffset s0 1) 5 < getSongTime (setOffset s0 0) 5) := by
  norm_num [applyOp, engineInit, engineStart, engineStop, setOffset, getSongTime,
    max_def]

/-- C5 (amended): for every reachable clock state, `getSongTime` returns 0
when not playing and `max 0 (now - originTime - pausedAccumulated -
calibrationOffset)` while playing; a positive calibration offset `x` never
makes the reported time larger, and makes it smaller by exactly `x`
whenever the uncalibrated elapsed time is at least `x` (the `max 0` clamp
caps the reduction near zero). -/
theorem getSongTime_formula (s : EngineState) (now : ℚ)
    (hreach : EngineReachable s) :
    (s.isPlaying = false → getSongTime s now = 0) ∧
    (s.isPlaying = true →
      getSongTime s now =
        max 0 (now - s.songStartTime - s.totalPausedTime - s.calibrationOffset)) ∧
    (∀ x : ℚ, 0 < x →
      getSongTime (setOffset s x) now ≤ getSongTime (setOffset s 0) now ∧
      (s.isPlaying = true → x ≤ now - s.songStartTime - s.totalPausedTime →
        getSongTime (setOffset s x) now =
          getSongTime (setOffset s 0) now - x)) := by
  have hctx := reachable_playing_hasContext s hreach
  refine ⟨?_, ?_, ?_⟩
  · intro hp
    simp [getSongTime, hp]
  · intro hp
    simp [getSongTime, hp, hctx hp]
  · intro x hx
    constructor
    · by_cases hp : s.isPlaying = true
      · have hc := hctx hp
        simp only [getSongTime, setOffset, hc, hp]
        simp only [Bool.not_true, false_or, or_self, if_false]
        exact max_le_max le_rfl (by linarith)
      · have hp' : s.isPlaying = false := by
          cases h : s.isPlaying
          · rfl
          · exact absurd h hp
        simp [getSongTime, setOffset, hp']
    · intro hp hxe
      have hc := hctx hp
      simp only [getSongTime, setOffset, hc, hp]
      norm_num
      rw [max_eq_right (by linarith), max_eq_right (by linarith)]

/-- C5 witness: the amended formula instantiated on the state reached by
`start()` at device time 2, read at device time 10 with offset `3`. -/
theorem getSongTime_formula_witness :
    (let s0 := List.foldl applyOp engineInit [EngineOp.start 2]
     (s0.isPlaying = false → getSongTime s0 10 = 0) ∧
     (s0.isPlaying = true →
       getSongTime s0 10 =
         max 0 (10 - s0.songStartTime - s0.totalPausedTime - s0.calibrationOffset)) ∧
     (∀ x : ℚ, 0 < x →
       getSongTime (setOffset s0 x) 10 ≤ getSongTime (setOffset s0 0) 10 ∧
       (s0.isPlaying = true → x ≤ 10 - s0.songStartTime - s0.totalPausedTime →
         getSongTime (setOffset s0 x) 10 =
           getSongTime (setOffset s0 0) 10 - x))) :=
  getSongTime_formula (List.foldl applyOp engineInit [EngineOp.start 2]) 10
    ⟨[EngineOp.start 2], rfl⟩

/-- C9: reading the song time at the device instant of `pause()` and again
at the device instant of the matching `resume()` gives the same value, for
any pause duration, because the pause interval is measured on the same
device clock `getSongTime` reads; `pause()` is a no-op when not playing or
already paused, and `resume()` is a no-op when not paused. -/
theorem pause_resume_exclusion (s : EngineState) (a b : ℚ) :
    (s.hasContext = true → s.isPlaying = true → s.isPaused = false →
      getSongTime (engineResume (enginePause s a) b) b = getSongTime s a) ∧
    (s.isPlaying = false ∨ s.isPaused = true → enginePause s a = s) ∧
    (s.isPaused = false → engineResume s b = s) := by
  obtain ⟨hc, st, off, pl, pa, ps, tp⟩ := s
  refine ⟨?_, ?_, ?_⟩
  · intro h1 h2 h3
    subst h1; subst h2; subst h3
    simp only [enginePause, engineResume, getSongTime]
    norm_num
    congr 1
    ring
  · intro h
    rcases h with h | h <;> simp_all [enginePause]
  · intro h
    subst h
    simp [engineResume]

/-- C9 witness: pause at device time 4, resume at device time 9, on the
state reached by `start()` at device time 2; and the no-ops on concrete
non-playing / non-paused states. -/
theorem pause_resume_exclusion_witness :
    (getSongTime
        (engineResume (enginePause (List.foldl applyOp engineInit [EngineOp.start 2]) 4) 9) 9 =
      getSongTime (List.foldl applyOp engineInit [EngineOp.start 2]) 4) ∧
    (enginePause engineInit 4 = engineInit) ∧
    (engineResume engineInit 9 = engineInit) :=
  ⟨(pause_resume_exclusion (List.foldl applyOp engineInit [EngineOp.start 2]) 4 9).1
      rfl rfl rfl,
   (pause_resume_exclusion engineInit 4 9).2.1 (Or.inl rfl),
   (pause_resume_exclusion engineInit 4 9).2.2 rfl⟩

/-!  Claim theorems: end-of-session transition. -/

/-- C2 counterexample: a Running tick sampling `songTime = 3.5` past the
chart duration `3` of a one-note chart does transition to Ended, but the
audio engine's `stop()` is never among the calls the loop makes on that
tick (`endGame` only snapshots the stats to the end screen). -/
theorem end_tick_does_not_stop_audio :
    (let st := startState [{ lane := 0, hitTime := 1, hit := false }]
     chartDurationOf st.chart = some 3 ∧
     st.isRunning = true ∧
     (3.5 : ℚ) > 3 ∧
     (tickStep st 3 3.5).1.isRunning = false ∧
     Effect.stopAudio ∉ (tickStep st 3 3.5).2) := by
  refine ⟨?_, rfl, by norm_num, ?_, ?_⟩
  · norm_num [startState, chartDurationOf]
  · norm_num [startState, tickStep, endGame]
  · norm_num [startState, tickStep, endGame]
    decide

/-- C2 (amended): on any Running tick whose sampled `songTime` exceeds
`chartDuration`, the loop transitions to Ended and emits exactly one call:
the end-screen snapshot of the current stats, score, accuracy and grade —
in particular it performs no rendering on that tick, and it does not
invoke the audio engine's `stop()`. -/
theorem end_tick_transition (st : LoopState) (dur t : ℚ)
    (hrun : st.isRunning = true) (hpast : t > dur) :
    (tickStep st dur t).1 = { st with isRunning := false } ∧
    (tickStep st dur t).2 =
      [Effect.showEndScreen st.gameState.stats st.gameState.score
        (getAccuracy st.gameState) (getGrade st.gameState)] ∧
    ∀ e ∈ (tickStep st dur t).2, e.isRender = false ∧ e ≠ Effect.stopAudio := by
  have h1 : ¬ st.isRunning = false := by simp [hrun]
  refine ⟨?_, ?_, ?_⟩ <;>
    simp [tickStep, endGame, h1, hpast, Effect.isRender]

/-- C2 witness: the amended transition on a concrete one-note session at
`songTime = 3.5 > 3 = chartDuration`. -/
theorem end_tick_transition_witness :
    ((tickStep (startState [{ lane := 0, hitTime := 1, hit := false }]) 3 3.5).1 =
      { startState [{ lane := 0, hitTime := 1, hit := false }] with isRunning := false } ∧
     (tickStep (startState [{ lane := 0, hitTime := 1, hit := false }]) 3 3.5).2 =
      [Effect.showEndScreen
        (startState [{ lane := 0, hitTime := 1, hit := false }]).gameState.stats
        (startState [{ lane := 0, hitTime := 1, hit := false }]).gameState.score
        (getAccuracy (startState [{ lane := 0, hitTime := 1, hit := false }]).gameState)
        (getGrade (startState [{ lane := 0, hitTime := 1, hit := false }]).gameState)] ∧
     ∀ e ∈ (tickStep (startState [{ lane := 0, hitTime := 1, hit := false }]) 3 3.5).2,
       e.isRender = false ∧ e ≠ Effect.stopAudio) :=
  end_tick_transition (startState [{ lane := 0, hitTime := 1, hit := false }]) 3 3.5
    rfl (by norm_num)

/-!  Helper lemmas: `findNearestNote` picks an eligible nearest note. -/

theorem nearestFold_mem (t : ℚ) :
    ∀ (l : List (ℕ × Note)) (p : ℕ × Note), nearestFold t p l ∈ p :: l := by
  intro l
  induction l with
  | nil => intro p; simp [nearestFold]
  | cons q qs ih =>
    intro p
    have hunf : nearestFold t p (q :: qs) =
        nearestFold t (if |q.2.hitTime - t| < |p.2.hitTime - t| then q else p) qs := rfl
    rw [hunf]
    by_cases hc : |q.2.hitTime - t| < |p.2.hitTime - t|
    · rw [if_pos hc]
      rcases List.mem_cons.1 (ih q) with h | h
      · simp [h]
      · simp [h]
    · rw [if_neg hc]
      rcases List.mem_cons.1 (ih p) with h | h
      · simp [h]
      · simp [h]

theorem nearestFold_min (t : ℚ) :
    ∀ (l : List (ℕ × Note)) (p : ℕ × Note), ∀ q ∈ p :: l,
      |(nearestFold t p l).2.hitTime - t| ≤ |q.2.hitTime - t| := by
  intro l
  induction l with
  | nil =>
    intro p q hq
    rcases List.mem_cons.1 hq with rfl | h
    · simp [nearestFold]
    · simp at h
  | cons r rs ih =>
    intro p q hq
    have hunf : nearestFold t p (r :: rs) =
        nearestFold t (if |r.2.hitTime - t| < |p.2.hitTime - t| then r else p) rs := rfl
    rw [hunf]
    set b := if |r.2.hitTime - t| < |p.2.hitTime - t| then r else p with hb
    have hbb : |b.2.hitTime - t| ≤ |p.2.hitTime - t| ∧
        |b.2.hitTime - t| ≤ |r.2.hitTime - t| := by
      by_cases hc : |r.2.hitTime - t| < |p.2.hitTime - t|
      · rw [hb, if_pos hc]
        exact ⟨le_of_lt hc, le_refl _⟩
      · rw [hb, if_neg hc]
        exact ⟨le_refl _, not_lt.1 hc⟩
    have hself := ih b b (List.mem_cons_self b rs)
    rcases List.mem_cons.1 hq with rfl | hq'
    · exact le_trans hself hbb.1
    · rcases List.mem_cons.1 hq' with rfl | hq''
      · exact le_trans hself hbb.2
      · exact ih b q (List.mem_cons_of_mem b hq'')

theorem findNearestNote_some (chart : List Note) (lane : ℕ) (t : ℚ)
    (i : ℕ) (note : Note)
    (h : findNearestNote chart lane t = some (i, note)) :
    chart.get? i = some note ∧ note.hit = false ∧ note.lane = lane ∧
    note.hitTime ≥ t - 0.120 ∧ note.hitTime ≤ t + 0.120 ∧
    ∀ m ∈ chart, m.lane = lane → m.hit = false →
      m.hitTime ≥ t - 0.120 → m.hitTime ≤ t + 0.120 →
      |note.hitTime - t| ≤ |m.hitTime - t| := by
  unfold findNearestNote at h
  split at h
  · exact absurd h (by simp)
  · rename_i p ps heq
    have hfold : nearestFold t p ps = (i, note) := Option.some.inj h
    have hmem : (i, note) ∈ p :: ps := hfold ▸ nearestFold_mem t ps p
    rw [← heq] at hmem
    obtain ⟨henum, hpred⟩ := List.mem_filter.1 hmem
    simp only [decide_eq_true_eq] at hpred
    obtain ⟨hl, hh, h1, h2⟩ := hpred
    refine ⟨List.mem_enum_iff_get?.1 henum, hh, hl, h1, h2, ?_⟩
    intro m hm hml hmh hm1 hm2
    obtain ⟨j, hj⟩ := List.mem_iff_get?.1 hm
    have hjm : (j, m) ∈ chart.enum := List.mem_enum_iff_get?.2 hj
    have hjf : (j, m) ∈ chart.enum.filter (fun p =>
        p.2.lane = lane ∧ p.2.hit = false ∧
        p.2.hitTime ≥ t - 0.120 ∧ p.2.hitTime ≤ t + 0.120) :=
      List.mem_filter.2 ⟨hjm, by
        simp only [decide_eq_true_eq]
        exact ⟨hml, hmh, hm1, hm2⟩⟩
    rw [heq] at hjf
    have := nearestFold_min t ps p (j, m) hjf
    rw [hfold] at this
    exact this

theorem findNearestNote_none (chart : List Note) (lane : ℕ) (t : ℚ)
    (h : findNearestNote chart lane t = none) :
    ∀ m ∈ chart, m.lane = lane → m.hit = false →
      ¬ (m.hitTime ≥ t - 0.120 ∧ m.hitTime ≤ t + 0.120) := by
  unfold findNearestNote at h
  split at h
  · rename_i heq
    intro m hm hml hmh hcon
    obtain ⟨j, hj⟩ := List.mem_iff_get?.1 hm
    have hjm : (j, m) ∈ chart.enum := List.mem_enum_iff_get?.2 hj
    have hjf : (j, m) ∈ chart.enum.filter (fun p =>
        p.2.lane = lane ∧ p.2.hit = false ∧
        p.2.hitTime ≥ t - 0.120 ∧ p.2.hitTime ≤ t + 0.120) :=
      List.mem_filter.2 ⟨hjm, by
        simp only [decide_eq_true_eq]
        exact ⟨hml, hmh, hcon.1, hcon.2⟩⟩
    rw [heq] at hjf
    simp at hjf
  · exact absurd h (by simp)

/-!  Claim theorems: hit-handling candidate selection. -/

/-- C8: for a lane press handled while Running (debounce passed, key
mapped to a lane), the candidate is an unjudged note of that lane within
`±0.120` of the sampled song time with the smallest absolute difference;
and when no such note exists the press changes neither the accumulator nor
any note's judged flag and emits no effect. -/
theorem keypress_candidate_and_noop (st : LoopState) (key : Char) (lane : ℕ)
    (t : ℚ) (hrun : st.isRunning = true)
    (hheld : isKeyPressed st.heldKeys key = false)
    (hlane : getLane key = some lane) :
    ((∀ m ∈ st.chart, m.lane = lane → m.hit = false →
        ¬ |m.hitTime - t| ≤ 0.120) →
      (handleKeyPress st key t).1.gameState = st.gameState ∧
      (handleKeyPress st key t).1.chart = st.chart ∧
      (handleKeyPress st key t).2 = []) ∧
    (∀ i note, findNearestNote st.chart lane t = some (i, note) →
      note.hit = false ∧ note.lane = lane ∧ |note.hitTime - t| ≤ 0.120 ∧
      st.chart.get? i = some note ∧
      ∀ m ∈ st.chart, m.lane = lane → m.hit = false →
        |m.hitTime - t| ≤ 0.120 → |note.hitTime - t| ≤ |m.hitTime - t|) := by
  have h1 : ¬ st.isRunning = false := by simp [hrun]
  constructor
  · intro hnone
    have hfind : findNearestNote st.chart lane t = none := by
      cases hf : findNearestNote st.chart lane t with
      | none => rfl
      | some p =>
        obtain ⟨i, note⟩ := p
        obtain ⟨_, hh, hl, hw1, hw2, _⟩ := findNearestNote_some st.chart lane t i note hf
        obtain ⟨j, hj⟩ := List.mem_iff_get?.1
          (List.mem_iff_get?.2 ⟨i, (findNearestNote_some st.chart lane t i note hf).1⟩)
        have hmem : note ∈ st.chart :=
          List.mem_iff_get?.2 ⟨i, (findNearestNote_some st.chart lane t i note hf).1⟩
        have habs : |note.hitTime - t| ≤ 0.120 := by
          rw [abs_sub_le_iff]
          constructor <;> linarith
        exact absurd habs (hnone note hmem hl hh)
    simp [handleKeyPress, h1, hheld, hlane, hfind]
  · intro i note hf
    obtain ⟨hget, hh, hl, hw1, hw2, hmin⟩ := findNearestNote_some st.chart lane t i note hf
    have habs : |note.hitTime - t| ≤ 0.120 := by
      rw [abs_sub_le_iff]
      constructor <;> linarith
    refine ⟨hh, hl, habs, hget, ?_⟩
    intro m hm hml hmh hmabs
    have hw := abs_sub_le_iff.1 hmabs
    exact hmin m hm hml hmh (by linarith [hw.2]) (by linarith [hw.1])

/-- C8 witness: on a two-note chart with notes at 1.0 and 1.1 in lane 0, a
press of key a at song time 1.06 selects the nearer note (the one at 1.1);
instantiated through the claim theorem. -/
theorem keypress_candidate_and_noop_witness :
    ((∀ m ∈ (startState [{ lane := 0, hitTime := 1.0, hit := false },
                         { lane := 0, hitTime := 1.1, hit := false }]).chart,
        m.lane = 0 → m.hit = false → ¬ |m.hitTime - (1.06 : ℚ)| ≤ 0.120) →
      (handleKeyPress (startState [{ lane := 0, hitTime := 1.0, hit := false },
          { lane := 0, hitTime := 1.1, hit := false }]) 'a' 1.06).1.gameState =
        (startState [{ lane := 0, hitTime := 1.0, hit := false },
          { lane := 0, hitTime := 1.1, hit := false }]).gameState ∧
      (handleKeyPress (startState [{ lane := 0, hitTime := 1.0, hit := false },
          { lane := 0, hitTime := 1.1, hit := false }]) 'a' 1.06).1.chart =
        (startState [{ lane := 0, hitTime := 1.0, hit := false },
          { lane := 0, hitTime := 1.1, hit := false }]).chart ∧
      (handleKeyPress (startState [{ lane := 0, hitTime := 1.0, hit := false },
          { lane := 0, hitTime := 1.1, hit := false }]) 'a' 1.06).2 = []) ∧
    (∀ i note,
      findNearestNote (startState [{ lane := 0, hitTime := 1.0, hit := false },
          { lane := 0, hitTime := 1.1, hit := false }]).chart 0 1.06 = some (i, note) →
      note.hit = false ∧ note.lane = 0 ∧ |note.hitTime - (1.06 : ℚ)| ≤ 0.120 ∧
      (startState [{ lane := 0, hitTime := 1.0, hit := false },
          { lane := 0, hitTime := 1.1, hit := false }]).chart.get? i = some note ∧
      ∀ m ∈ (startState [{ lane := 0, hitTime := 1.0, hit := false },
          { lane := 0, hitTime := 1.1, hit := false }]).chart,
        m.lane = 0 → m.hit = false → |m.hitTime - (1.06 : ℚ)| ≤ 0.120 →
          |note.hitTime - (1.06 : ℚ)| ≤ |m.hitTime - (1.06 : ℚ)|) :=
  keypress_candidate_and_noop
    (startState [{ lane := 0, hitTime := 1.0, hit := false },
                 { lane := 0, hitTime := 1.1, hit := false }]) 'a' 0 1.06
    rfl rfl (by decide)

/-!  Helper lemmas: the judged flag is a single-writer latch. -/

theorem noteEvol_trans {a b c : Note} (h1 : NoteEvol a b) (h2 : NoteEvol b c) :
    NoteEvol a c := by
  rcases h1 with rfl | ⟨ha, rfl⟩
  · exact h2
  · rcases h2 with rfl | ⟨hb, rfl⟩
    · exact Or.inr ⟨ha, rfl⟩
    · simp at hb

theorem chartEvol_refl (c : List Note) : ChartEvol c c := by
  refine ⟨rfl, ?_⟩
  intro i n h
  exact ⟨n, h, Or.inl rfl⟩

theorem chartEvol_trans {c1 c2 c3 : List Note}
    (h1 : ChartEvol c1 c2) (h2 : ChartEvol c2 c3) : ChartEvol c1 c3 := by
  refine ⟨h2.1.trans h1.1, ?_⟩
  intro i n hn
  obtain ⟨m, hm, hnm⟩ := h1.2 i n hn
  obtain ⟨k, hk, hmk⟩ := h2.2 i m hm
  exact ⟨k, hk, noteEvol_trans hnm hmk⟩

theorem chartEvol_cons {n m : Note} {c c' : List Note}
    (hn : NoteEvol n m) (hc : ChartEvol c c') :
    ChartEvol (n :: c) (m :: c') := by
  refine ⟨by simp [hc.1], ?_⟩
  intro i x hx
  cases i with
  | zero =>
    simp only [List.get?] at hx ⊢
    exact ⟨m, rfl, (Option.some.inj hx) ▸ hn⟩
  | succ j =>
    simp only [List.get?] at hx ⊢
    exact hc.2 j x hx

theorem checkMissedNotes_evol (t : ℚ) :
    ∀ (chart : List Note) (gs : GameState) (fb : String),
      ChartEvol chart (checkMissedNotes gs fb chart t).2.2.1 := by
  intro chart
  induction chart with
  | nil =>
    intro gs fb
    exact chartEvol_refl []
  | cons n ns ih =>
    intro gs fb
    by_cases h1 : n.hit = true
    · have hrw : (checkMissedNotes gs fb (n :: ns) t).2.2.1 =
          n :: (checkMissedNotes gs fb ns t).2.2.1 := by
        simp [checkMissedNotes, h1]
      rw [hrw]
      exact chartEvol_cons (Or.inl rfl) (ih gs fb)
    · have h1' : n.hit = false := by
        cases hn : n.hit
        · rfl
        · exact absurd hn h1
      by_cases h2 : n.hitTime - t < -0.120
      · have hrw : (checkMissedNotes gs fb (n :: ns) t).2.2.1 =
            { n with hit := true } ::
              (checkMissedNotes (processHit gs (evaluateHit n t))
                 (evaluateHit n t).rating.toString ns t).2.2.1 := by
          simp [checkMissedNotes, h1', h2]
        rw [hrw]
        exact chartEvol_cons (Or.inr ⟨h1', rfl⟩) (ih _ _)
      · have hrw : (checkMissedNotes gs fb (n :: ns) t).2.2.1 =
            n :: (checkMissedNotes gs fb ns t).2.2.1 := by
          simp [checkMissedNotes, h1', h2]
        rw [hrw]
        exact chartEvol_cons (Or.inl rfl) (ih gs fb)

theorem chartEvol_set (chart : List Note) (i : ℕ) (note : Note)
    (hget : chart.get? i = some note) (hh : note.hit = false) :
    ChartEvol chart (chart.set i { note with hit := true }) := by
  refine ⟨List.length_set chart i _, ?_⟩
  intro j m hm
  by_cases hij : i = j
  · subst hij
    have hmn : m = note := by
      rw [hget] at hm
      exact (Option.some.inj hm).symm
    subst hmn
    refine ⟨{ m with hit := true }, ?_, Or.inr ⟨hh, rfl⟩⟩
    rw [List.get?_set, if_pos rfl, hget]
    rfl
  · exact ⟨m, by rw [List.get?_set_ne _ _ hij]; exact hm, Or.inl rfl⟩

theorem handleKeyPress_evol (st : LoopState) (key : Char) (t : ℚ) :
    ChartEvol st.chart (handleKeyPress st key t).1.chart := by
  by_cases h1 : st.isRunning = false
  · have h : (handleKeyPress st key t).1.chart = st.chart := by
      simp [handleKeyPress, h1]
    rw [h]
    exact chartEvol_refl _
  by_cases h2 : isKeyPressed st.heldKeys key = true
  · have h : (handleKeyPress st key t).1.chart = st.chart := by
      simp [handleKeyPress, h1, h2]
    rw [h]
    exact chartEvol_refl _
  cases hl : getLane key with
  | none =>
    have h : (handleKeyPress st key t).1.chart = st.chart := by
      simp [handleKeyPress, h1, h2, hl]
    rw [h]
    exact chartEvol_refl _
  | some lane =>
    cases hf : findNearestNote st.chart lane t with
    | none =>
      have h : (handleKeyPress st key t).1.chart = st.chart := by
        simp [handleKeyPress, h1, h2, hl, hf]
      rw [h]
      exact chartEvol_refl _
    | some p =>
      obtain ⟨i, note⟩ := p
      obtain ⟨hget, hh, -, -, -, -⟩ := findNearestNote_some st.chart lane t i note hf
      have heq : (handleKeyPress st key t).1.chart =
          st.chart.set i { note with hit := true } := by
        by_cases hr : (evaluateHit note t).rating = Rating.MISS
        · simp [handleKeyPress, h1, h2, hl, hf, hh, hr]
        · simp [handleKeyPress, h1, h2, hl, hf, hh, hr]
      rw [heq]
      exact chartEvol_set st.chart i note hget hh

theorem tickStep_evol (st : LoopState) (dur t : ℚ) :
    ChartEvol st.chart (tickStep st dur t).1.chart := by
  unfold tickStep
  by_cases h1 : st.isRunning = false
  · rw [if_pos h1]
    exact chartEvol_refl _
  rw [if_neg h1]
  by_cases h2 : t > dur
  · rw [if_pos h2]
    show ChartEvol st.chart st.chart
    exact chartEvol_refl _
  · rw [if_neg h2]
    show ChartEvol st.chart
      (checkMissedNotes st.gameState st.currentFeedback st.chart t).2.2.1
    exact checkMissedNotes_evol t st.chart st.gameState st.currentFeedback

theorem step_evol (st : LoopState) (dur : ℚ) (e : GEvent) :
    ChartEvol st.chart (step st dur e).1.chart := by
  cases e with
  | tick t => exact tickStep_evol st dur t
  | keyDown k t => exact handleKeyPress_evol st k t
  | keyUp k =>
    show ChartEvol st.chart st.chart
    exact chartEvol_refl _

theorem runEvents_evol (dur : ℚ) :
    ∀ (evs : List GEvent) (st : LoopState),
      ChartEvol st.chart (runEvents st dur evs).1.chart := by
  intro evs
  induction evs with
  | nil => intro st; exact chartEvol_refl _
  | cons e es ih =>
    intro st
    show ChartEvol st.chart (runEvents (step st dur e).1 dur es).1.chart
    exact chartEvol_trans (step_evol st dur e) (ih (step st dur e).1)

theorem checkMissedNotes_all_hit (t : ℚ) :
    ∀ (chart : List Note) (gs : GameState) (fb : String),
      (∀ n ∈ chart, n.hitTime - t < -0.120) →
      ∀ m ∈ (checkMissedNotes gs fb chart t).2.2.1, m.hit = true := by
  intro chart
  induction chart with
  | nil =>
    intro gs fb h m hm
    simp [checkMissedNotes] at hm
  | cons n ns ih =>
    intro gs fb h m hm
    by_cases h1 : n.hit = true
    · rw [show (checkMissedNotes gs fb (n :: ns) t).2.2.1 =
          n :: (checkMissedNotes gs fb ns t).2.2.1 from by
        simp [checkMissedNotes, h1]] at hm
      rcases List.mem_cons.1 hm with rfl | hm'
      · exact h1
      · exact ih gs fb (fun x hx => h x (List.mem_cons_of_mem n hx)) m hm'
    · have h1' : n.hit = false := by
        cases hn : n.hit
        · rfl
        · exact absurd hn h1
      have h2 : n.hitTime - t < -0.120 := h n (List.mem_cons_self n ns)
      rw [show (checkMissedNotes gs fb (n :: ns) t).2.2.1 =
          { n with hit := true } ::
            (checkMissedNotes (processHit gs (evaluateHit n t))
               (evaluateHit n t).rating.toString ns t).2.2.1 from by
        simp [checkMissedNotes, h1', h2]] at hm
      rcases List.mem_cons.1 hm with rfl | hm'
      · rfl
      · exact ih _ _ (fun x hx => h x (List.mem_cons_of_mem n hx)) m hm'

theorem chartEvol_all_hit {c c' : List Note} (h : ChartEvol c c')
    (hall : ∀ m ∈ c, m.hit = true) : ∀ m ∈ c', m.hit = true := by
  intro m hm
  obtain ⟨j, hj⟩ := List.mem_iff_get?.1 hm
  have hjlt : j < c.length := by
    rw [← h.1]
    by_contra hge
    rw [List.get?_eq_none.2 (le_of_not_lt hge)] at hj
    exact Option.noConfusion hj
  obtain ⟨n, hn⟩ : ∃ n, c.get? j = some n := by
    cases hcj : c.get? j with
    | none => exact absurd (List.get?_eq_none.1 hcj) (not_le.2 hjlt)
    | some n => exact ⟨n, rfl⟩
  obtain ⟨m', hm', hevol⟩ := h.2 j n hn
  have hmm : m' = m := by
    rw [hj] at hm'
    exact (Option.some.inj hm').symm
  subst hmm
  have hnhit : n.hit = true := hall n (List.mem_iff_get?.2 ⟨j, hn⟩)
  rcases hevol with rfl | ⟨hnf, rfl⟩
  · exact hnhit
  · rfl

/-!  Claim theorems: judgment completeness and the judged latch. -/

/-- C6 counterexample: a session over the one-note chart whose only tick
samples `songTime = 3.5` (already past `chartDuration = 3`) reaches Ended
with the note never judged — under an arbitrary interleaving of ticks the
end-of-session check can fire before the miss scan ever sees the note, so
a finished session does not guarantee every note was judged. -/
theorem judged_completeness_counterexample :
    chartDurationOf [{ lane := 0, hitTime := 1, hit := false }] = some 3 ∧
    (runEvents (startState [{ lane := 0, hitTime := 1, hit := false }]) 3
        [GEvent.tick 3.5]).1.isRunning = false ∧
    ∃ n, n ∈ (runEvents (startState [{ lane := 0, hitTime := 1, hit := false }]) 3
        [GEvent.tick 3.5]).1.chart ∧ n.hit = false := by
  refine ⟨by norm_num [chartDurationOf], ?_, ?_⟩
  · norm_num [runEvents, step, tickStep, endGame, startState]
  · refine ⟨{ lane := 0, hitTime := 1, hit := false }, ?_, rfl⟩
    have h : (runEvents (startState [{ lane := 0, hitTime := 1, hit := false }]) 3
        [GEvent.tick 3.5]).1.chart = [{ lane := 0, hitTime := 1, hit := false }] := by
      norm_num [runEvents, step, tickStep, endGame, startState]
    rw [h]
    exact List.mem_singleton.2 rfl

/-- C6 (amended): across every interleaving of ticks and key events, the
judged flag is a single-writer latch — every chart position keeps its note
unchanged except for at most one `false → true` transition of `hit`, and a
note already judged is skipped (left untouched) by both the miss scan and
the hit path; full judgment coverage additionally holds for any session
whose event sequence contains a Running tick that samples a `songTime`
within the chart duration but beyond every note's miss deadline
(`hitTime + 0.120`). -/
theorem judged_flag_latch :
    (∀ (st : LoopState) (dur : ℚ) (evs : List GEvent),
      ChartEvol st.chart (runEvents st dur evs).1.chart) ∧
    (∀ (st : LoopState) (dur t : ℚ) (evs : List GEvent),
      st.isRunning = true → ¬ t > dur →
      (∀ n ∈ st.chart, n.hitTime - t < -0.120) →
      ∀ m ∈ (runEvents st dur (GEvent.tick t :: evs)).1.chart, m.hit = true) := by
  constructor
  · intro st dur evs
    exact runEvents_evol dur evs st
  · intro st dur t evs hrun hle hmiss
    have h1 : ¬ st.isRunning = false := by simp [hrun]
    have hstep : (step st dur (GEvent.tick t)).1.chart =
        (checkMissedNotes st.gameState st.currentFeedback st.chart t).2.2.1 := by
      simp [step, tickStep, h1, hle]
    have hall : ∀ m ∈ (step st dur (GEvent.tick t)).1.chart, m.hit = true := by
      rw [hstep]
      exact checkMissedNotes_all_hit t st.chart st.gameState st.currentFeedback hmiss
    have hrest : ChartEvol (step st dur (GEvent.tick t)).1.chart
        (runEvents (step st dur (GEvent.tick t)).1 dur evs).1.chart :=
      runEvents_evol dur evs (step st dur (GEvent.tick t)).1
    have hfin := chartEvol_all_hit hrest hall
    intro m hm
    exact hfin m hm

/-- C6 witness: the latch and the coverage clause on a concrete one-note
session — a Running tick at `songTime = 1.2` (past the note's miss
deadline `1.12`, within the duration `3`) leaves every note judged. -/
theorem judged_flag_latch_witness :
    ChartEvol (startState [{ lane := 0, hitTime := 1, hit := false }]).chart
      (runEvents (startState [{ lane := 0, hitTime := 1, hit := false }]) 3
        [GEvent.tick 1.2]).1.chart ∧
    ∀ m ∈ (runEvents (startState [{ lane := 0, hitTime := 1, hit := false }]) 3
        (GEvent.tick 1.2 :: [])).1.chart, m.hit = true :=
  ⟨judged_flag_latch.1 (startState [{ lane := 0, hitTime := 1, hit := false }]) 3
      [GEvent.tick 1.2],
   judged_flag_latch.2 (startState [{ lane := 0, hitTime := 1, hit := false }]) 3 1.2 []
      rfl (by norm_num)
      (by
        intro n hn
        rw [List.mem_singleton.1 hn]
        norm_num)⟩

/-!  Helper lemmas: the combo-milestone tracker. -/

theorem checkComboMilestone_mono (last combo : ℕ) (h : combo ≠ 0) :
    last ≤ (checkComboMilestone last combo).1 := by
  unfold checkComboMilestone
  cases hf : [10, 20, 50, 100].find? (fun m => combo = m ∧ last < m) with
  | none => simp [hf, h]
  | some m =>
    have hp := List.find?_some hf
    simp only [decide_eq_true_eq] at hp
    simp [hf, h]
    exact le_of_lt hp.2

theorem tickStep_milestone (st : LoopState) (dur t : ℚ) :
    (tickStep st dur t).1.lastComboMilestone = st.lastComboMilestone := by
  unfold tickStep endGame
  split_ifs <;> rfl

theorem handleKeyPress_milestone_mono (st : LoopState) (key : Char) (t : ℚ) :
    st.lastComboMilestone ≤ (handleKeyPress st key t).1.lastComboMilestone := by
  by_cases h1 : st.isRunning = false
  · have h : (handleKeyPress st key t).1.lastComboMilestone = st.lastComboMilestone := by
      simp [handleKeyPress, h1]
    rw [h]
  by_cases h2 : isKeyPressed st.heldKeys key = true
  · have h : (handleKeyPress st key t).1.lastComboMilestone = st.lastComboMilestone := by
      simp [handleKeyPress, h1, h2]
    rw [h]
  cases hl : getLane key with
  | none =>
    have h : (handleKeyPress st key t).1.lastComboMilestone = st.lastComboMilestone := by
      simp [handleKeyPress, h1, h2, hl]
    rw [h]
  | some lane =>
    cases hf : findNearestNote st.chart lane t with
    | none =>
      have h : (handleKeyPress st key t).1.lastComboMilestone = st.lastComboMilestone := by
        simp [handleKeyPress, h1, h2, hl, hf]
      rw [h]
    | some p =>
      obtain ⟨i, note⟩ := p
      obtain ⟨-, hh, -, -, -, -⟩ := findNearestNote_some st.chart lane t i note hf
      by_cases hr : (evaluateHit note t).rating = Rating.MISS
      · have h : (handleKeyPress st key t).1.lastComboMilestone = st.lastComboMilestone := by
          simp [handleKeyPress, h1, h2, hl, hf, hh, hr]
        rw [h]
      · have h : (handleKeyPress st key t).1.lastComboMilestone =
            (checkComboMilestone st.lastComboMilestone
              (processHit st.gameState (evaluateHit note t)).stats.currentCombo).1 := by
          simp [handleKeyPress, h1, h2, hl, hf, hh, hr]
        rw [h]
        refine checkComboMilestone_mono _ _ ?_
        rw [processHit_currentCombo]
        simp [hr]

/-!  Claim theorems: combo-milestone chime. -/

/-- C3 (code bug): the milestone tracker can never reset during a run.
Ticks — including the miss-scan path that resets `currentCombo` to 0 —
leave `lastComboMilestone` untouched, and key presses never decrease it
(`checkComboMilestone` is only ever invoked with a combo ≥ 1, so its
`combo = 0` reset branch, whose own comment says it resets the tracker
when the combo is broken, is unreachable).  Consequently, re-crossing a
milestone after a miss fires no chime: with the tracker already at 10, a
combo of 10 produces no `playComboChime`. -/
theorem milestone_tracker_never_resets_midrun :
    (∀ (st : LoopState) (dur t : ℚ),
      (tickStep st dur t).1.lastComboMilestone = st.lastComboMilestone) ∧
    (∀ (st : LoopState) (dur : ℚ) (e : GEvent),
      st.lastComboMilestone ≤ (step st dur e).1.lastComboMilestone) ∧
    checkComboMilestone 10 10 = (10, []) ∧
    checkComboMilestone 0 10 = (10, [Effect.playComboChime 10]) := by
  refine ⟨tickStep_milestone, ?_, by decide, by decide⟩
  intro st dur e
  cases e with
  | tick t => exact (tickStep_milestone st dur t).ge
  | keyDown k t => exact handleKeyPress_milestone_mono st k t
  | keyUp k => exact le_refl _

end KeyHero
